import Mathlib

/-!
Shallow embedding of `neupy/algorithms/gd/quasi_newton.py`.

Numeric model: the Python code computes with IEEE floats through Theano
tensors; we embed the arithmetic over `ℚ`.  Vectors of length `n` are
`Fin n → ℚ` and matrices are `Matrix (Fin n) (Fin n) ℚ`.  The two places
where float-specific behaviour matters are modelled explicitly:

* `T.isinf(rho)` for `rho = 1 / d`: over ideal arithmetic the quotient is
  non-finite exactly when `d = 0`, so the guard in `bfgs` is embedded as a
  test `d = 0`.  IEEE division `1 / +0` gives `+inf` whose sign is `+1`,
  so the substituted value `maxrho * sgn(rho)` is embedded as `maxrho`
  (the `-0` denominator, which would give `-maxrho`, has no rational
  counterpart).
* the SR1 guard compares `|denom| < eps * norm2 r * norm2 y`; both sides
  are nonnegative for `eps ≥ 0`, so the comparison is embedded by its
  square, which stays inside `ℚ`.  The equivalence with the real-valued
  norm comparison is proved in `sr1_cond_iff`.

The step controller `init_train_updates` builds a symbolic update list;
its behaviour is embedded as a pure transition on the shared variables
(`inv_hessian`, `prev_params`, `prev_full_gradient`), with the external
collaborators (the network, the error function and the Wolfe line search)
passed in as function parameters.
-/

namespace NeupyQuasiNewton

open Matrix

/-- Embedding of Theano's `T.outer`: `outer a b i j = a i * b j`. -/
def outer {n : ℕ} (a b : Fin n → ℚ) : Matrix (Fin n) (Fin n) ℚ :=
  Matrix.of fun i j => a i * b j

/-- Broadcast division of a matrix by a scalar, `M / c` in Theano. -/
def sdiv {n : ℕ} (M : Matrix (Fin n) (Fin n) ℚ) (c : ℚ) : Matrix (Fin n) (Fin n) ℚ :=
  Matrix.of fun i j => M i j / c

/-- Scalar embedding of `T.clip(x, lo, hi)`. -/
def clip (x lo hi : ℚ) : ℚ := min (max x lo) hi

/-- Elementwise `T.clip` on a matrix. -/
def clipM {n : ℕ} (M : Matrix (Fin n) (Fin n) ℚ) (lo hi : ℚ) : Matrix (Fin n) (Fin n) ℚ :=
  Matrix.of fun i j => clip (M i j) lo hi

/-- Elementwise (broadcast) product of two matrices: Theano's `*` on two
tensors of equal shape.  This is what `dfp` applies between
`T.outer(quasi_dot_gradient, gradient_delta)` and `inverse_hessian`. -/
def emul {n : ℕ} (A B : Matrix (Fin n) (Fin n) ℚ) : Matrix (Fin n) (Fin n) ℚ :=
  Matrix.of fun i j => A i j * B i j

/-- Squared Euclidean norm of a vector, `(v.norm(L=2))²`. -/
def normSq {n : ℕ} (v : Fin n → ℚ) : ℚ := v ⬝ᵥ v

/-- Embedding of the guarded `rho` of `bfgs`: the code computes
`rho = 1 / d` and replaces it by `maxrho * T.sgn(rho)` when
`T.isinf(rho)`; over ideal arithmetic `1 / d` is non-finite exactly when
`d = 0`, and the sign of IEEE `1 / +0 = +inf` is `+1`. -/
def bfgsRho (d maxrho : ℚ) : ℚ :=
  if d = 0 then maxrho else 1 / d

/-- Embedding of `bfgs(inverse_hessian, weight_delta, gradient_delta,
maxrho=1e4)` from `quasi_newton.py`. -/
def bfgs {n : ℕ} (inverse_hessian : Matrix (Fin n) (Fin n) ℚ)
    (weight_delta gradient_delta : Fin n → ℚ) (maxrho : ℚ) :
    Matrix (Fin n) (Fin n) ℚ :=
  let ident_matrix : Matrix (Fin n) (Fin n) ℚ := 1
  let rho := bfgsRho (gradient_delta ⬝ᵥ weight_delta) maxrho
  let param1 := ident_matrix - rho • outer weight_delta gradient_delta
  let param2 := ident_matrix - rho • outer gradient_delta weight_delta
  let param3 := rho • outer weight_delta weight_delta
  param1 * inverse_hessian * param2 + param3

/-- Embedding of `dfp(inverse_hessian, weight_delta, gradient_delta,
maxnum=1e5)`.  Note that the second term's numerator is the elementwise
product `T.outer(quasi_dot_gradient, gradient_delta) * inverse_hessian`
(Theano `*` broadcasts elementwise), clipped to `[-maxnum, maxnum]`. -/
def dfp {n : ℕ} (inverse_hessian : Matrix (Fin n) (Fin n) ℚ)
    (weight_delta gradient_delta : Fin n → ℚ) (maxnum : ℚ) :
    Matrix (Fin n) (Fin n) ℚ :=
  let quasi_dot_gradient := inverse_hessian.mulVec gradient_delta
  let param1 := sdiv (outer weight_delta weight_delta)
    (gradient_delta ⬝ᵥ weight_delta)
  let param2_numerator := clipM
    (emul (outer quasi_dot_gradient gradient_delta) inverse_hessian)
    (-maxnum) maxnum
  let param2_denominator := gradient_delta ⬝ᵥ quasi_dot_gradient
  let param2 := sdiv param2_numerator param2_denominator
  inverse_hessian + param1 - param2

/-- Embedding of `psb(inverse_hessian, weight_delta, gradient_delta)`
(for a 1-D tensor `gradient_delta.T` is `gradient_delta` itself). -/
def psb {n : ℕ} (inverse_hessian : Matrix (Fin n) (Fin n) ℚ)
    (weight_delta gradient_delta : Fin n → ℚ) :
    Matrix (Fin n) (Fin n) ℚ :=
  let param := weight_delta - inverse_hessian.mulVec gradient_delta
  let devider := 1 / (gradient_delta ⬝ᵥ gradient_delta)
  let param1 := outer param gradient_delta + outer gradient_delta param
  let param2 := (gradient_delta ⬝ᵥ param) • outer gradient_delta gradient_delta
  inverse_hessian + devider • param1 - (devider ^ 2) • param2

/-- Embedding of `sr1(inverse_hessian, weight_delta, gradient_delta,
epsilon=1e-8)`.  The code's skip test is
`|denominator| < epsilon * param.norm(L=2) * gradient_delta.norm(L=2)`;
both sides are nonnegative for `epsilon ≥ 0`, so the test is embedded as
the equivalent comparison of squares, which stays in `ℚ` (the
equivalence with the square-root form is `sr1_cond_iff` below). -/
def sr1 {n : ℕ} (inverse_hessian : Matrix (Fin n) (Fin n) ℚ)
    (weight_delta gradient_delta : Fin n → ℚ) (epsilon : ℚ) :
    Matrix (Fin n) (Fin n) ℚ :=
  let param := weight_delta - inverse_hessian.mulVec gradient_delta
  let denominator := param ⬝ᵥ gradient_delta
  if denominator ^ 2 < epsilon ^ 2 * normSq param * normSq gradient_delta
  then inverse_hessian
  else inverse_hessian + sdiv (outer param param) denominator

/-- The BFGS update exactly as the specification writes it:
`(I − ρ·s⊗y) · H · (I − ρ·y⊗s) + ρ·(s⊗s)` for a given scalar `ρ`. -/
def bfgsSpecFormula {n : ℕ} (H : Matrix (Fin n) (Fin n) ℚ)
    (s y : Fin n → ℚ) (rho : ℚ) : Matrix (Fin n) (Fin n) ℚ :=
  (1 - rho • outer s y) * H * (1 - rho • outer y s) + rho • outer s s

/-- Shared variables created by `QuasiNewton.init_variables`. -/
structure QNVariables (n : ℕ) where
  inv_hessian : Matrix (Fin n) (Fin n) ℚ
  prev_params : Fin n → ℚ
  prev_full_gradient : Fin n → ℚ

/-- Embedding of `QuasiNewton.init_variables`: `inv_hessian` starts as
`h0_scale * I`, the two previous vectors start as zero vectors. -/
def init_variables (n : ℕ) (h0_scale : ℚ) : QNVariables n :=
  ⟨h0_scale • (1 : Matrix (Fin n) (Fin n) ℚ), 0, 0⟩

/-- Embedding of `QuasiNewton.init_train_updates` as a pure transition.
`upd` is the selected update strategy (`self.update_function`), already
applied to its keyword defaults; `line_search` stands for the external
Wolfe search `line_search(phi, derphi)`, abstracted as a function of the
data `phi`/`derphi` are built from, namely the current parameter vector
and the direction `param_delta` (the network itself is fixed for the
life of the optimizer).  The result is the committed parameter vector
together with the new values of the three shared variables. -/
def init_train_updates {n : ℕ}
    (upd : Matrix (Fin n) (Fin n) ℚ → (Fin n → ℚ) → (Fin n → ℚ) →
      Matrix (Fin n) (Fin n) ℚ)
    (line_search : (Fin n → ℚ) → (Fin n → ℚ) → ℚ)
    (epoch : ℕ) (vars : QNVariables n)
    (param_vector full_gradient : Fin n → ℚ) :
    (Fin n → ℚ) × QNVariables n :=
  let new_inv_hessian :=
    if epoch = 1 then vars.inv_hessian
    else upd vars.inv_hessian (param_vector - vars.prev_params)
      (full_gradient - vars.prev_full_gradient)
  let param_delta := -(new_inv_hessian.mulVec full_gradient)
  let step := line_search param_vector param_delta
  let updated_params := param_vector + step • param_delta
  (updated_params, ⟨new_inv_hessian, param_vector, full_gradient⟩)

section Prediction

variable {K V O : Type} [DecidableEq K]

/-- One pass of `setattr(layer, attrname, f attrname)` over the attribute
keys, in order, on an attribute store `σ`. -/
def setParams (keys : List K) (f : K → V) (σ : K → V) : K → V :=
  keys.foldl (fun s k => Function.update s k (f k)) σ

/-- Embedding of the local `prediction(step)` closure: every listed layer
attribute is overwritten with its trial expression (`trial k` stands for
the reshaped slice of `param_vector + step * param_delta` for attribute
`k`), the network output is taken on the substituted store, and then each
attribute is set back to the stored parameter `orig k`.  Returns the
output together with the attribute store after the restore loop. -/
def prediction (keys : List K) (orig trial : K → V)
    (connection_output : (K → V) → O) (σ : K → V) : O × (K → V) :=
  let σ1 := setParams keys trial σ
  let output := connection_output σ1
  let σ2 := setParams keys orig σ1
  (output, σ2)

end Prediction

/-- The recognized `update_function` names, from the `choices` dictionary
of the `ChoiceProperty` in `QuasiNewton`. -/
def update_function_choices : List String := ["bfgs", "dfp", "psb", "sr1"]

/-- Configured options of a `QuasiNewton` instance. -/
structure QNConfig where
  update_function : String
  h0_scale : ℚ

/-- Modelled from the spec: the validation performed by `ChoiceProperty`
and `NumberProperty` (their implementations live in
`neupy.core.properties`, which is not part of this file); per the spec an
unrecognized `update_function` name or a negative `h0_scale` fails
eagerly at configuration time, before any training iteration runs.  The
choice set and the bound `minval=0` are the arguments the source passes
to the two properties. -/
def configure (update_function : String) (h0_scale : ℚ) : Option QNConfig :=
  if update_function ∈ update_function_choices ∧ 0 ≤ h0_scale
  then some ⟨update_function, h0_scale⟩
  else none

/-- Defaults declared in the source: `update_function` defaults to
`bfgs`, `h0_scale` defaults to `1`. -/
def defaultConfig : QNConfig := ⟨"bfgs", 1⟩

/-- Dispatch from a recognized name to the update function it selects in
the `choices` dictionary, each applied to its keyword default. -/
def chosenUpdate (n : ℕ) (name : String) :
    Option (Matrix (Fin n) (Fin n) ℚ → (Fin n → ℚ) → (Fin n → ℚ) →
      Matrix (Fin n) (Fin n) ℚ) :=
  if name = "bfgs" then some (fun H s y => bfgs H s y 10000)
  else if name = "dfp" then some (fun H s y => dfp H s y 100000)
  else if name = "psb" then some psb
  else if name = "sr1" then some (fun H s y => sr1 H s y (1 / 100000000))
  else none

/-! ### General lemmas about the embedded operations -/

/-- Transposing an outer product swaps its arguments. -/
theorem outer_transpose {n : ℕ} (a b : Fin n → ℚ) : (outer a b)ᵀ = outer b a := by
  ext i j
  simp [outer, mul_comm]

/-- The squared Euclidean norm is nonnegative. -/
theorem normSq_nonneg {n : ℕ} (v : Fin n → ℚ) : 0 ≤ normSq v := by
  unfold normSq Matrix.dotProduct
  exact Finset.sum_nonneg fun i _ => mul_self_nonneg (v i)

/-- The squared form of the SR1 guard agrees with the source's
square-root form: for nonnegative `ε`, `a`, `b`, comparing `d²` with
`ε²·a·b` is the same as comparing `|d|` with `ε·√a·√b` over the reals. -/
theorem sr1_cond_iff (d a b ε : ℚ) (hε : 0 ≤ ε) (ha : 0 ≤ a) (hb : 0 ≤ b) :
    d ^ 2 < ε ^ 2 * a * b ↔
      |(d : ℝ)| < (ε : ℝ) * Real.sqrt (a : ℝ) * Real.sqrt (b : ℝ) := by
  have hε' : (0 : ℝ) ≤ (ε : ℝ) := by exact_mod_cast hε
  have h1 : (ε : ℝ) * Real.sqrt (a : ℝ) * Real.sqrt (b : ℝ) =
      Real.sqrt ((ε : ℝ) ^ 2 * (a : ℝ) * (b : ℝ)) := by
    rw [Real.sqrt_mul (by positivity), Real.sqrt_mul (by positivity),
      Real.sqrt_sq hε']
  have h2 : |(d : ℝ)| = Real.sqrt ((d : ℝ) ^ 2) := (Real.sqrt_sq_eq_abs _).symm
  rw [h2, h1, Real.sqrt_lt_sqrt_iff (by positivity)]
  constructor
  · intro h
    exact_mod_cast h
  · intro h
    exact_mod_cast h

/-- Value of an attribute store after one setting pass: keys in the list
hold their new value, every other key is untouched. -/
theorem setParams_apply {K V : Type} [DecidableEq K] (keys : List K) (f : K → V)
    (σ : K → V) (x : K) :
    setParams keys f σ x = if x ∈ keys then f x else σ x := by
  induction keys generalizing σ with
  | nil => simp [setParams]
  | cons k ks ih =>
    simp only [setParams, List.foldl_cons] at ih ⊢
    rw [ih]
    by_cases hx : x ∈ ks
    · simp [hx]
    · by_cases hk : x = k
      · subst hk
        simp [hx, Function.update_apply]
      · simp [hx, hk, Function.update_apply]

/-- Diagonal entry of `dfp` at the identity inverse Hessian with
`s = (1,0)` and `y = (t,0)`: the first correction term divides by
`yᵀs = t` with no guard, so the entry is `1/t`. -/
theorem dfp_diag (t : ℚ) (ht : t ≠ 0) (hle : t * t ≤ 100000) :
    (dfp (1 : Matrix (Fin 2) (Fin 2) ℚ) ![1, 0] ![t, 0] 100000) 0 0 = 1 / t := by
  have hmax : max (t * t) (-100000 : ℚ) = t * t :=
    max_eq_left (le_trans (by norm_num) (mul_self_nonneg t))
  have hmin : min (t * t) (100000 : ℚ) = t * t := min_eq_left hle
  norm_num [dfp, sdiv, clipM, emul, outer, clip, Matrix.mulVec, Matrix.dotProduct,
    Fin.sum_univ_two, Matrix.one_apply, Matrix.vecHead, Matrix.vecTail,
    min_comm, hmax, hmin]
  field_simp

/-! ### Symmetry of the update strategies -/

/-- BFGS preserves symmetry of the inverse Hessian: the two bracket
factors are transposes of each other, so the update has the shape
`A * H * Aᵀ + ρ·s⊗s`. -/
theorem bfgs_isSymm {n : ℕ} (H : Matrix (Fin n) (Fin n) ℚ) (s y : Fin n → ℚ)
    (maxrho : ℚ) (hH : H.IsSymm) : (bfgs H s y maxrho).IsSymm := by
  rw [Matrix.IsSymm] at hH ⊢
  show ((1 - bfgsRho (y ⬝ᵥ s) maxrho • outer s y) * H *
      (1 - bfgsRho (y ⬝ᵥ s) maxrho • outer y s) +
      bfgsRho (y ⬝ᵥ s) maxrho • outer s s)ᵀ = _
  simp [Matrix.transpose_add, Matrix.transpose_mul, Matrix.transpose_sub,
    Matrix.transpose_smul, Matrix.transpose_one, outer_transpose, hH,
    Matrix.mul_assoc, bfgs]

/-- PSB preserves symmetry: both correction terms are symmetric
matrices. -/
theorem psb_isSymm {n : ℕ} (H : Matrix (Fin n) (Fin n) ℚ) (s y : Fin n → ℚ)
    (hH : H.IsSymm) : (psb H s y).IsSymm := by
  have hH' : ∀ i j, H j i = H i j := fun i j => (congrFun (congrFun hH j) i).symm
  rw [Matrix.IsSymm]
  ext i j
  simp only [psb, Matrix.transpose_apply, Matrix.add_apply, Matrix.sub_apply,
    Matrix.smul_apply, outer, Matrix.of_apply, smul_eq_mul]
  rw [hH' i j]
  ring

/-- SR1 preserves symmetry: either branch of the guard returns a
symmetric matrix. -/
theorem sr1_isSymm {n : ℕ} (H : Matrix (Fin n) (Fin n) ℚ) (s y : Fin n → ℚ)
    (ε : ℚ) (hH : H.IsSymm) : (sr1 H s y ε).IsSymm := by
  have hH' : ∀ i j, H j i = H i j := fun i j => (congrFun (congrFun hH j) i).symm
  rw [Matrix.IsSymm]
  ext i j
  simp only [sr1]
  split
  · exact hH' i j
  · simp only [Matrix.transpose_apply, Matrix.add_apply, sdiv, outer,
      Matrix.of_apply]
    rw [hH' i j]
    ring

/-- Claim C1: the claim says that each of `bfgs`, `dfp`, `psb`, `sr1` returns a
symmetric matrix on every symmetric input `H`.  This fails for `dfp`: at
the symmetric input `H = [[1,2],[2,1]]` with `s = y = [1,0]`, `dfp`
returns a matrix with entries `2` and `-2` at the mirror positions
`(0,1)` and `(1,0)` — `dfp` takes the elementwise product
`outer(Hy, y) * H` where the DFP formula (and the spec, `Hy ⊗ y · H`)
requires the matrix product `Hy yᵀ H`, so symmetry is destroyed. -/
theorem dfp_breaks_symmetry_on_symmetric_input :
    (!![(1:ℚ), 2; 2, 1]).IsSymm ∧
    (dfp !![(1:ℚ), 2; 2, 1] ![1, 0] ![1, 0] 100000) 0 1 = 2 ∧
    (dfp !![(1:ℚ), 2; 2, 1] ![1, 0] ![1, 0] 100000) 1 0 = -2 ∧
    ¬ (dfp !![(1:ℚ), 2; 2, 1] ![1, 0] ![1, 0] 100000).IsSymm := by
  have h01 : (dfp !![(1:ℚ), 2; 2, 1] ![1, 0] ![1, 0] 100000) 0 1 = 2 := by
    norm_num [dfp, sdiv, clipM, emul, outer, clip, Matrix.mulVec,
      Matrix.dotProduct, Fin.sum_univ_two, Matrix.vecHead, Matrix.vecTail]
  have h10 : (dfp !![(1:ℚ), 2; 2, 1] ![1, 0] ![1, 0] 100000) 1 0 = -2 := by
    norm_num [dfp, sdiv, clipM, emul, outer, clip, Matrix.mulVec,
      Matrix.dotProduct, Fin.sum_univ_two, Matrix.vecHead, Matrix.vecTail]
  refine ⟨?_, h01, h10, ?_⟩
  · rw [Matrix.IsSymm]
    ext i j
    fin_cases i <;> fin_cases j <;> norm_num
  · intro h
    have h2 := h.apply 0 1
    rw [h01] at h2
    rw [h10] at h2
    norm_num at h2

/-! ### The BFGS rho guard and formula -/

/-- Claim C2: whenever `yᵀs = 0` — exactly the inputs on which the float
quotient `ρ = 1/(yᵀs)` is non-finite under ideal arithmetic — `bfgs`
uses the substituted value `sgn(ρ)·maxrho = maxrho` throughout, so it
returns the spec formula evaluated at `ρ = maxrho`, a matrix of plain
rationals with no unbounded or undefined entry. -/
theorem bfgs_nonfinite_rho_replaced {n : ℕ} (H : Matrix (Fin n) (Fin n) ℚ)
    (s y : Fin n → ℚ) (maxrho : ℚ) (h : y ⬝ᵥ s = 0) :
    bfgs H s y maxrho = bfgsSpecFormula H s y maxrho := by
  simp [bfgs, bfgsSpecFormula, bfgsRho, h]

/-- Witness for C2 at `H = I`, `s = (1,0)`, `y = (0,1)`, `maxrho = 1e4`:
the curvature product is exactly zero and the guard fires. -/
theorem bfgs_nonfinite_rho_replaced_witness :
    (![0, 1] ⬝ᵥ ![1, 0] : ℚ) = 0 ∧
    bfgs (1 : Matrix (Fin 2) (Fin 2) ℚ) ![1, 0] ![0, 1] 10000 =
      bfgsSpecFormula (1 : Matrix (Fin 2) (Fin 2) ℚ) ![1, 0] ![0, 1] 10000 :=
  ⟨by norm_num [Matrix.dotProduct, Fin.sum_univ_two],
   bfgs_nonfinite_rho_replaced 1 ![1, 0] ![0, 1] 10000
     (by norm_num [Matrix.dotProduct, Fin.sum_univ_two])⟩

/-- Claim C4: whenever `ρ = 1/(yᵀs)` is finite, i.e. `yᵀs ≠ 0`, `bfgs` returns
exactly `(I − ρ·s⊗y) · H · (I − ρ·y⊗s) + ρ·(s⊗s)`. -/
theorem bfgs_matches_spec_formula {n : ℕ} (H : Matrix (Fin n) (Fin n) ℚ)
    (s y : Fin n → ℚ) (maxrho : ℚ) (h : y ⬝ᵥ s ≠ 0) :
    bfgs H s y maxrho = bfgsSpecFormula H s y (1 / (y ⬝ᵥ s)) := by
  simp [bfgs, bfgsSpecFormula, bfgsRho, h]

/-- Witness for C4 at `H = I`, `s = y = (1,0)`, where `yᵀs = 1`. -/
theorem bfgs_matches_spec_formula_witness :
    (![1, 0] ⬝ᵥ ![1, 0] : ℚ) ≠ 0 ∧
    bfgs (1 : Matrix (Fin 2) (Fin 2) ℚ) ![1, 0] ![1, 0] 10000 =
      bfgsSpecFormula (1 : Matrix (Fin 2) (Fin 2) ℚ) ![1, 0] ![1, 0]
        (1 / (![1, 0] ⬝ᵥ ![1, 0] : ℚ)) :=
  ⟨by norm_num [Matrix.dotProduct, Fin.sum_univ_two],
   bfgs_matches_spec_formula 1 ![1, 0] ![1, 0] 10000
     (by norm_num [Matrix.dotProduct, Fin.sum_univ_two])⟩

/-! ### The SR1 guard -/

/-- Claim C3: with `r = s − H·y` and `denom = rᵀy`, `sr1` returns `H` unchanged
when `|denom| < ε·‖r‖₂·‖y‖₂`, and `H + (r⊗r)/denom` otherwise.  The norm
comparison is stated over the reals exactly as the source writes it. -/
theorem sr1_skip_and_update {n : ℕ} (H : Matrix (Fin n) (Fin n) ℚ)
    (s y : Fin n → ℚ) (ε : ℚ) (hε : 0 ≤ ε) :
    (|(((s - H.mulVec y) ⬝ᵥ y : ℚ) : ℝ)| <
        (ε : ℝ) * Real.sqrt ((normSq (s - H.mulVec y) : ℚ) : ℝ) *
          Real.sqrt ((normSq y : ℚ) : ℝ) →
      sr1 H s y ε = H) ∧
    (¬ (|(((s - H.mulVec y) ⬝ᵥ y : ℚ) : ℝ)| <
        (ε : ℝ) * Real.sqrt ((normSq (s - H.mulVec y) : ℚ) : ℝ) *
          Real.sqrt ((normSq y : ℚ) : ℝ)) →
      sr1 H s y ε = H +
        sdiv (outer (s - H.mulVec y) (s - H.mulVec y))
          ((s - H.mulVec y) ⬝ᵥ y)) := by
  have hiff := sr1_cond_iff ((s - H.mulVec y) ⬝ᵥ y) (normSq (s - H.mulVec y))
    (normSq y) ε hε (normSq_nonneg _) (normSq_nonneg _)
  constructor
  · intro h
    show (if ((s - H.mulVec y) ⬝ᵥ y) ^ 2 <
        ε ^ 2 * normSq (s - H.mulVec y) * normSq y
      then H
      else H + sdiv (outer (s - H.mulVec y) (s - H.mulVec y))
        ((s - H.mulVec y) ⬝ᵥ y)) = H
    rw [if_pos (hiff.mpr h)]
  · intro h
    show (if ((s - H.mulVec y) ⬝ᵥ y) ^ 2 <
        ε ^ 2 * normSq (s - H.mulVec y) * normSq y
      then H
      else H + sdiv (outer (s - H.mulVec y) (s - H.mulVec y))
        ((s - H.mulVec y) ⬝ᵥ y)) = _
    rw [if_neg (fun hc => h (hiff.mp hc))]

/-- Witness for C3: at `H = 0`, `s = (1,0)`, `y = (0,1)` the denominator
is exactly zero while `r` and `y` are nonzero, so the skip path fires and
`H` comes back unchanged. -/
theorem sr1_skip_and_update_witness :
    (0 : ℚ) ≤ 1 / 100000000 ∧
    sr1 (0 : Matrix (Fin 2) (Fin 2) ℚ) ![1, 0] ![0, 1] (1 / 100000000) = 0 :=
  ⟨by norm_num,
   (sr1_skip_and_update (0 : Matrix (Fin 2) (Fin 2) ℚ) ![1, 0] ![0, 1]
       (1 / 100000000) (by norm_num)).1
     (by norm_num [Matrix.zero_mulVec, sub_zero, normSq, Matrix.dotProduct,
       Fin.sum_univ_two, Real.sqrt_one])⟩

/-! ### Step controller -/

/-- Claim C5: on epoch 1 the step controller never invokes the selected update
function — the committed transition is the same for any two strategies,
the persisted inverse Hessian is still the initialized `h0_scale · I`,
and the committed parameters are computed from that unmodified matrix;
the update function is applied exactly when the epoch differs from 1. -/
theorem epoch_one_skips_update {n : ℕ}
    (upd upd' : Matrix (Fin n) (Fin n) ℚ → (Fin n → ℚ) → (Fin n → ℚ) →
      Matrix (Fin n) (Fin n) ℚ)
    (ls : (Fin n → ℚ) → (Fin n → ℚ) → ℚ) (h0 : ℚ) (p g : Fin n → ℚ)
    (vars : QNVariables n) (e : ℕ) (he : e ≠ 1) :
    init_train_updates upd ls 1 (init_variables n h0) p g =
      init_train_updates upd' ls 1 (init_variables n h0) p g ∧
    (init_train_updates upd ls 1 (init_variables n h0) p g).2.inv_hessian =
      h0 • (1 : Matrix (Fin n) (Fin n) ℚ) ∧
    (init_train_updates upd ls 1 (init_variables n h0) p g).1 =
      p + ls p (-((h0 • (1 : Matrix (Fin n) (Fin n) ℚ)).mulVec g)) •
        (-((h0 • (1 : Matrix (Fin n) (Fin n) ℚ)).mulVec g)) ∧
    (init_train_updates upd ls e vars p g).2.inv_hessian =
      upd vars.inv_hessian (p - vars.prev_params)
        (g - vars.prev_full_gradient) := by
  refine ⟨rfl, rfl, rfl, ?_⟩
  simp [init_train_updates, he]

/-- Witness for C5 with one parameter, `h0_scale = 2`, `p = (5)`,
`g = (7)`, a constant-zero strategy against the identity strategy, and
epoch 2 for the last conjunct. -/
theorem epoch_one_skips_update_witness :
    (2 : ℕ) ≠ 1 ∧
    (init_train_updates (fun _ _ _ => 0) (fun _ _ => 1) 1
        (init_variables 1 2) ![5] ![7] =
      init_train_updates (fun H _ _ => H) (fun _ _ => 1) 1
        (init_variables 1 2) ![5] ![7] ∧
    (init_train_updates (fun _ _ _ => (0 : Matrix (Fin 1) (Fin 1) ℚ))
        (fun _ _ => 1) 1 (init_variables 1 2) ![5] ![7]).2.inv_hessian =
      (2 : ℚ) • (1 : Matrix (Fin 1) (Fin 1) ℚ) ∧
    (init_train_updates (fun _ _ _ => (0 : Matrix (Fin 1) (Fin 1) ℚ))
        (fun _ _ => 1) 1 (init_variables 1 2) ![5] ![7]).1 =
      ![5] + (fun _ _ => (1 : ℚ)) ![5]
          (-(((2 : ℚ) • (1 : Matrix (Fin 1) (Fin 1) ℚ)).mulVec ![7])) •
        (-(((2 : ℚ) • (1 : Matrix (Fin 1) (Fin 1) ℚ)).mulVec ![7])) ∧
    (init_train_updates (fun _ _ _ => (0 : Matrix (Fin 1) (Fin 1) ℚ))
        (fun _ _ => 1) 2 (init_variables 1 2) ![5] ![7]).2.inv_hessian =
      (fun _ _ _ => (0 : Matrix (Fin 1) (Fin 1) ℚ))
        (init_variables 1 2).inv_hessian
        (![5] - (init_variables 1 2).prev_params)
        (![7] - (init_variables 1 2).prev_full_gradient)) :=
  ⟨by norm_num,
   epoch_one_skips_update (fun _ _ _ => 0) (fun H _ _ => H) (fun _ _ => 1)
     2 ![5] ![7] (init_variables 1 2) 2 (by norm_num)⟩

/-- Claim C6: each iteration commits `p + α·(−H·g)` where `α` is the value the
line search returns and `H` is the (conditionally updated) inverse
Hessian, and persists exactly `H`, the pre-step parameter vector and the
pre-step gradient; with three scalar parameters, `h0_scale = 1` and a
line search returning step 1 on epoch 1, the committed parameters are
`p − g`. -/
theorem step_commits_and_persists :
    (∀ (n : ℕ)
      (upd : Matrix (Fin n) (Fin n) ℚ → (Fin n → ℚ) → (Fin n → ℚ) →
        Matrix (Fin n) (Fin n) ℚ)
      (ls : (Fin n → ℚ) → (Fin n → ℚ) → ℚ) (e : ℕ) (vars : QNVariables n)
      (p g : Fin n → ℚ),
      (init_train_updates upd ls e vars p g).1 =
        p + ls p (-((if e = 1 then vars.inv_hessian
            else upd vars.inv_hessian (p - vars.prev_params)
              (g - vars.prev_full_gradient)).mulVec g)) •
          (-((if e = 1 then vars.inv_hessian
            else upd vars.inv_hessian (p - vars.prev_params)
              (g - vars.prev_full_gradient)).mulVec g)) ∧
      (init_train_updates upd ls e vars p g).2 =
        ⟨if e = 1 then vars.inv_hessian
          else upd vars.inv_hessian (p - vars.prev_params)
            (g - vars.prev_full_gradient), p, g⟩) ∧
    (∀ (p g : Fin 3 → ℚ)
      (upd : Matrix (Fin 3) (Fin 3) ℚ → (Fin 3 → ℚ) → (Fin 3 → ℚ) →
        Matrix (Fin 3) (Fin 3) ℚ),
      (init_train_updates upd (fun _ _ => 1) 1 (init_variables 3 1) p g).1 =
        p - g) := by
  constructor
  · intro n upd ls e vars p g
    exact ⟨rfl, rfl⟩
  · intro p g upd
    show p + (1 : ℚ) • (-(((1 : ℚ) • (1 : Matrix (Fin 3) (Fin 3) ℚ)).mulVec g)) =
      p - g
    simp [Matrix.one_mulVec, sub_eq_add_neg]

/-- Claim C10: on epoch 1 the whole transition — committed parameters and all
three persisted variables — is unchanged when only the stored
`prev_params` and `prev_full_gradient` differ, since the epoch-1 branch
never reads them. -/
theorem epoch_one_ignores_previous_state :
    ∀ (n : ℕ)
      (upd : Matrix (Fin n) (Fin n) ℚ → (Fin n → ℚ) → (Fin n → ℚ) →
        Matrix (Fin n) (Fin n) ℚ)
      (ls : (Fin n → ℚ) → (Fin n → ℚ) → ℚ)
      (H : Matrix (Fin n) (Fin n) ℚ) (pp pg pp' pg' p g : Fin n → ℚ),
      init_train_updates upd ls 1 ⟨H, pp, pg⟩ p g =
        init_train_updates upd ls 1 ⟨H, pp', pg'⟩ p g := by
  intro n upd ls H pp pg pp' pg' p g
  rfl

/-! ### What the degeneracy guards do and do not absorb -/

/-- Claim C7 counterexample: the claim says every division by a near-zero
curvature term in the four update functions is absorbed by a local
guard, in particular that `dfp` is guarded against `yᵀs ≈ 0`.  At
`H = I`, `s = (1,0)`, `y = (10⁻⁴⁰⁰, 0)` the curvature term `yᵀs` is the
near-zero value `10⁻⁴⁰⁰`, yet `dfp` returns `10⁴⁰⁰` at entry `(0,0)` — a
value beyond the largest IEEE double (`≈ 1.8·10³⁰⁸`), i.e. an infinity in
the float semantics: the clip bounds only the second term's numerator and
nothing guards the division by `yᵀs`. -/
theorem dfp_division_unguarded_counterexample :
    (![1 / 10 ^ 400, 0] ⬝ᵥ ![1, 0] : ℚ) = 1 / 10 ^ 400 ∧
    (dfp (1 : Matrix (Fin 2) (Fin 2) ℚ) ![1, 0] ![1 / 10 ^ 400, 0] 100000) 0 0 =
      10 ^ 400 ∧
    ((10 : ℚ) ^ 400 > 10 ^ 308) := by
  refine ⟨by norm_num [Matrix.dotProduct, Fin.sum_univ_two], ?_, by norm_num⟩
  rw [dfp_diag (1 / 10 ^ 400) (by norm_num) (by norm_num), one_div_one_div]

/-- Claim C7 as amended: the BFGS ρ-substitution and the SR1 skip guard do
absorb their degenerate denominators, but `dfp` is not guarded: its
divisions by `yᵀs` and `yᵀHy` are unguarded (the clip bounds only the
second term's numerator), and its output takes arbitrarily large values
as `yᵀs` approaches zero. -/
theorem guards_absorb_bfgs_sr1_but_not_dfp :
    (∀ (n : ℕ) (H : Matrix (Fin n) (Fin n) ℚ) (s y : Fin n → ℚ) (maxrho : ℚ),
      y ⬝ᵥ s = 0 → bfgs H s y maxrho = bfgsSpecFormula H s y maxrho) ∧
    (∀ (n : ℕ) (H : Matrix (Fin n) (Fin n) ℚ) (s y : Fin n → ℚ) (ε : ℚ),
      ((s - H.mulVec y) ⬝ᵥ y) ^ 2 <
          ε ^ 2 * normSq (s - H.mulVec y) * normSq y →
        sr1 H s y ε = H) ∧
    (∀ B : ℚ, 1 ≤ B →
      (dfp (1 : Matrix (Fin 2) (Fin 2) ℚ) ![1, 0] ![1 / B, 0] 100000) 0 0 = B) := by
  refine ⟨?_, ?_, ?_⟩
  · intro n H s y maxrho h
    simp [bfgs, bfgsSpecFormula, bfgsRho, h]
  · intro n H s y ε h
    show (if ((s - H.mulVec y) ⬝ᵥ y) ^ 2 <
        ε ^ 2 * normSq (s - H.mulVec y) * normSq y
      then H
      else H + sdiv (outer (s - H.mulVec y) (s - H.mulVec y))
        ((s - H.mulVec y) ⬝ᵥ y)) = H
    rw [if_pos h]
  · intro B hB
    have hB0 : 0 < B := lt_of_lt_of_le one_pos hB
    have h1 : 1 / B ≤ 1 := by
      rw [div_le_one hB0]
      exact hB
    have h0 : (0 : ℚ) ≤ 1 / B := by positivity
    have hle : (1 / B) * (1 / B) ≤ 100000 :=
      le_trans (mul_le_one₀ h1 h0 h1) (by norm_num)
    rw [dfp_diag (1 / B) (one_div_ne_zero (ne_of_gt hB0)) hle, one_div_one_div]

/-- Witness for the amended C7, one instance per conjunct: the BFGS guard
at `yᵀs = 0`, the SR1 skip at `H = 0` with `ε = 10`, and a `dfp` output
of `2` produced by `yᵀs = 1/2`. -/
theorem guards_absorb_witness :
    ((![0] : Fin 1 → ℚ) ⬝ᵥ ![1] = 0 ∧
      bfgs (1 : Matrix (Fin 1) (Fin 1) ℚ) ![1] ![0] 10000 =
        bfgsSpecFormula (1 : Matrix (Fin 1) (Fin 1) ℚ) ![1] ![0] 10000) ∧
    sr1 (0 : Matrix (Fin 1) (Fin 1) ℚ) ![1] ![1] 10 = 0 ∧
    (dfp (1 : Matrix (Fin 2) (Fin 2) ℚ) ![1, 0] ![1 / 2, 0] 100000) 0 0 = 2 :=
  ⟨⟨by norm_num [Matrix.dotProduct, Fin.sum_univ_one],
    guards_absorb_bfgs_sr1_but_not_dfp.1 1 1 ![1] ![0] 10000
      (by norm_num [Matrix.dotProduct, Fin.sum_univ_one])⟩,
   guards_absorb_bfgs_sr1_but_not_dfp.2.1 1 0 ![1] ![1] 10
     (by norm_num [Matrix.zero_mulVec, sub_zero, normSq, Matrix.dotProduct,
       Fin.sum_univ_one]),
   guards_absorb_bfgs_sr1_but_not_dfp.2.2 2 (by norm_num)⟩

/-! ### Trial substitution during the line search -/

/-- Claim C8: when the attribute store holds the stored parameters (as it does
whenever `prediction` is entered), a trial evaluation is a local,
reversible override: the store after the restore loop is exactly the
store before the call, and re-evaluating at the same step on the restored
store yields the same output. -/
theorem trial_substitution_is_reversible_and_pure
    (K V O : Type) [DecidableEq K] (keys : List K) (orig trial : K → V)
    (connection_output : (K → V) → O) (σ : K → V)
    (hσ : ∀ k ∈ keys, σ k = orig k) :
    (prediction keys orig trial connection_output σ).2 = σ ∧
    (prediction keys orig trial connection_output
        ((prediction keys orig trial connection_output σ).2)).1 =
      (prediction keys orig trial connection_output σ).1 := by
  have hrestore : (prediction keys orig trial connection_output σ).2 = σ := by
    funext x
    show setParams keys orig (setParams keys trial σ) x = σ x
    rw [setParams_apply, setParams_apply]
    by_cases hx : x ∈ keys
    · rw [if_pos hx, (hσ x hx)]
    · rw [if_neg hx, if_neg hx]
  exact ⟨hrestore, by rw [hrestore]⟩

/-- Witness for C8: two attributes holding their stored values `0` and
`1`, a constant trial override `42`, and the sum of both attributes as
network output. -/
theorem trial_substitution_witness :
    (prediction [0, 1] (fun k : ℕ => (k : ℚ)) (fun _ => (42 : ℚ))
        (fun s => s 0 + s 1) (fun k : ℕ => (k : ℚ))).2 =
      (fun k : ℕ => (k : ℚ)) ∧
    (prediction [0, 1] (fun k : ℕ => (k : ℚ)) (fun _ => (42 : ℚ))
        (fun s => s 0 + s 1)
        ((prediction [0, 1] (fun k : ℕ => (k : ℚ)) (fun _ => (42 : ℚ))
            (fun s => s 0 + s 1) (fun k : ℕ => (k : ℚ))).2)).1 =
      (prediction [0, 1] (fun k : ℕ => (k : ℚ)) (fun _ => (42 : ℚ))
        (fun s => s 0 + s 1) (fun k : ℕ => (k : ℚ))).1 :=
  trial_substitution_is_reversible_and_pure ℕ ℚ ℚ [0, 1] (fun k : ℕ => (k : ℚ))
    (fun _ => (42 : ℚ)) (fun s => s 0 + s 1) (fun k : ℕ => (k : ℚ))
    (fun _ _ => rfl)

/-! ### Configuration validation -/

/-- Claim C9: configuring with the unrecognized name `newton`, or with
`h0_scale = -1`, is rejected at configuration time (no configured
instance is produced, so no training iteration can run), and the
defaults are `update_function = bfgs` and `h0_scale = 1`, which pass
validation. -/
theorem invalid_configuration_rejected :
    configure "newton" 1 = none ∧
    configure "bfgs" (-1) = none ∧
    defaultConfig.update_function = "bfgs" ∧
    defaultConfig.h0_scale = 1 ∧
    configure defaultConfig.update_function defaultConfig.h0_scale =
      some defaultConfig ∧
    chosenUpdate 2 "newton" = none := by
  refine ⟨?_, ?_, rfl, rfl, ?_, ?_⟩
  · simp [configure, update_function_choices]
  · simp [configure]
  · simp [configure, update_function_choices, defaultConfig]
  · simp [chosenUpdate]

end NeupyQuasiNewton
